import Mathlib

/- Verification of the deck filter / draw engine of the card-catalog viewer
   (yugioh/js/vampire.js, final revision).  JS strings are embedded as Lean
   strings with explicit ASCII case folding; JS numbers appearing in the
   engine (quantities, levels) are embedded as integers, and a quantity field
   whose Number() coercion is NaN is modelled by a dedicated constructor.
   Arrays are lists, Maps with a zero default are total functions, and the
   randomness of Math.random is an explicit oracle parameter. -/

/- ------------------------- string helpers ------------------------- -/

/-- Whitespace test backing the trim step (ASCII approximation of JS trim). -/
def charIsWs (ch : Char) : Bool :=
  ch == ' ' || ch == '\t' || ch == '\n' || ch == '\r'

/-- Trim whitespace from both ends of a character list. -/
def listTrim (l : List Char) : List Char :=
  ((l.dropWhile charIsWs).reverse.dropWhile charIsWs).reverse

/-- Embedded JS toLowerCase (ASCII case folding). -/
def strToLower (s : String) : String := String.mk (s.toList.map Char.toLower)

/-- Embedded JS s.includes(pat): substring containment. -/
def strIncludes (s pat : String) : Bool := decide (pat.toList <:+: s.toList)

/-- Split a character list at every slash; together with the per-token trim
this embeds the split on the slash-with-surrounding-whitespace regex used by
asArray. -/
def splitSlash : List Char → List (List Char)
  | [] => [[]]
  | ch :: t =>
    if ch == '/' then [] :: splitSlash t
    else
      match splitSlash t with
      | [] => [[ch]]
      | h :: rt => (ch :: h) :: rt

/-- Embedded JS Array.prototype.join with a separator. -/
def joinWith (sep : String) : List String → String
  | [] => ""
  | [s] => s
  | s :: t => s ++ sep ++ joinWith sep t

/- --------------------------- data model --------------------------- -/

/-- The raw type field of a card: either a slash-separated string or an array
of tags (asArray accepts both shapes). -/
inductive CardType where
  | str (s : String)
  | arr (l : List String)
deriving DecidableEq

/-- A JS qty field value: absent (undefined), numeric, or a value whose
Number() coercion is NaN (written nonNumeric). -/
inductive JsQty where
  | absent
  | num (n : Int)
  | nonNumeric
deriving DecidableEq

/-- A card record with the fields the engine reads. -/
structure Card where
  id : Option Int
  name : String
  qty : JsQty
  type : Option CardType
  level : Option Int
  rank : Option Int
  link : Option Int
  /- attr embeds the source field named attribute (a reserved word here) -/
  attr : Option String
  desc : Option String
  function : Option CardType
  functions : Option CardType
deriving DecidableEq

/-- The three named sections of a deck. -/
structure Sections where
  main : List Card
  extra : List Card
  side : List Card
deriving DecidableEq

/-- A deck document. -/
structure Deck where
  name : String
  author : String
  deckstyle : Option String
  sections : Sections
deriving DecidableEq

/-- The three kind toggles of the filter bar. -/
structure Kinds where
  Monster : Bool
  Spell : Bool
  Trap : Bool
deriving DecidableEq

/-- The filter criteria object produced by readFilters. -/
structure Filters where
  text : String
  kinds : Kinds
  levelMin : Option Int
  levelMax : Option Int
  fnTag : String
deriving DecidableEq

/- ----------------------- shared normalization --------------------- -/

/-- asArray: accepts a tag array, a slash-separated string, or a missing
field, and returns an array of tags (trimmed nonempty tokens in the string
case). -/
def asArray : Option CardType → List String
  | none => []
  | some (.arr l) => l
  | some (.str s) =>
    (((splitSlash s.toList).map (fun cs => String.mk (listTrim cs))).filter
      (fun t => t != ""))

/-- joinSlash: join tokens back into a single display string. -/
def joinSlash (arr : List String) : String := joinWith " / " arr

/-- typesArrToString: stringify card.type no matter its shape. -/
def typesArrToString (v : Option CardType) : String := joinSlash (asArray v)

/-- getFunctionTags: normalized array of function tags
(card.function ?? card.functions ?? [], lowercased). -/
def getFunctionTags (c : Card) : List String :=
  (asArray (c.function.orElse (fun _ => c.functions))).map strToLower

/-- Number(c.qty) || 1: the stored quantity with the JS falsy fallback
(zero, NaN and undefined all give 1). -/
def numQtyOr1 (c : Card) : Int :=
  match c.qty with
  | .absent => 1
  | .nonNumeric => 1
  | .num n => if n == 0 then 1 else n

/-- sumQty: reduce over a section adding Number(qty) || 1. -/
def sumQty (l : List Card) : Int := l.foldl (fun n c => n + numQtyOr1 c) 0

/- -------------------------- drawn ledger -------------------------- -/

/-- Stable per-card identity: prefer id, fall back to name. -/
inductive CardKey where
  | byId (i : Int)
  | byName (s : String)
deriving DecidableEq

/-- cardKey: the ledger key of a card. -/
def cardKey (c : Card) : CardKey :=
  match c.id with
  | some i => .byId i
  | none => .byName c.name

/-- The DRAWN.counts map, as a total function defaulting to zero
(Map.get(k) || 0). -/
abbrev Ledger := CardKey → Nat

/-- The cleared ledger. -/
def emptyLedger : Ledger := fun _ => 0

/-- incDrawn: add n to the drawn count of the card's key. -/
def incDrawn (c : Card) (n : Nat) (L : Ledger) : Ledger :=
  fun k => if k = cardKey c then L k + n else L k

/-- The return-to-pool decrement: one less, floored at zero (the counter is
only written when it is positive). -/
def unmarkOne (c : Card) (L : Ledger) : Ledger :=
  fun k => if k = cardKey c then (if 0 < L k then L k - 1 else L k) else L k

/-- remainingQtyFor: stored quantity minus drawn count, floored at zero. -/
def remainingQtyFor (c : Card) (L : Ledger) : Int :=
  max 0 (numQtyOr1 c - (L (cardKey c) : Int))

/-- Embedded JS test c.qty > 0 on the raw field (false for undefined and
NaN). -/
def qtyGtZero (q : JsQty) : Bool :=
  match q with
  | .num n => decide (0 < n)
  | _ => false

/-- projectCardsForDisplay: per-card remaining-quantity projection over fresh
records, dropping depleted cards. -/
def projectCardsForDisplay (l : List Card) (L : Ledger) : List Card :=
  (l.map (fun c => { c with qty := JsQty.num (remainingQtyFor c L) })).filter
    (fun c => qtyGtZero c.qty)

/- -------------------------- filter engine ------------------------- -/

/-- The monster kind token. -/
def monsterTok : String := "monster"

/-- The spell kind token. -/
def spellTok : String := "spell"

/-- The trap kind token. -/
def trapTok : String := "trap"

/-- Lowercased type tokens of a card. -/
def typeTokens (c : Card) : List String := (asArray c.type).map strToLower

/-- Any type token contains the substring monster. -/
def isMonsterCard (c : Card) : Bool :=
  (typeTokens c).any (fun t => strIncludes t monsterTok)

/-- Any type token contains the substring spell. -/
def isSpellCard (c : Card) : Bool :=
  (typeTokens c).any (fun t => strIncludes t spellTok)

/-- Any type token contains the substring trap. -/
def isTrapCard (c : Card) : Bool :=
  (typeTokens c).any (fun t => strIncludes t trapTok)

/-- The single level value: card.level ?? card.rank ?? card.link ?? null. -/
def lvlOf (c : Card) : Option Int :=
  (c.level.orElse (fun _ => c.rank)).orElse (fun _ => c.link)

/-- The two early returns of the level bound check, as one rejection test. -/
def levelRejected (c : Card) (f : Filters) : Bool :=
  match lvlOf c with
  | none => false
  | some v =>
    (match f.levelMin with
     | some m => decide (v < m)
     | none => false)
    ||
    (match f.levelMax with
     | some m => decide (m < v)
     | none => false)

/-- The free-text haystack: name, joined type tokens, attribute and
description, case folded and joined with spaces. -/
def hayOf (c : Card) : String :=
  joinWith " "
    ([c.name, typesArrToString c.type, c.attr.getD "", c.desc.getD ""].map
      strToLower)

/-- cardMatches: the per-card filter predicate, mirroring the early-return
chain of the source. -/
def cardMatches (c : Card) (f : Filters) : Bool :=
  if isMonsterCard c && !f.kinds.Monster then false
  else if isSpellCard c && !f.kinds.Spell then false
  else if isTrapCard c && !f.kinds.Trap then false
  else if levelRejected c f then false
  else if f.fnTag != "" && !((getFunctionTags c).contains f.fnTag) then false
  else if f.text != "" && !(strIncludes (hayOf c) f.text) then false
  else true

/-- filterCards: keep the cards that pass the filters. -/
def filterCards (cards : List Card) (f : Filters) : List Card :=
  cards.filter (fun c => cardMatches c f)

/-- makeFilteredDeck: the three sections filtered, other fields spread
through. -/
def makeFilteredDeck (d : Deck) (f : Filters) : Deck :=
  { d with
    sections :=
      { main := filterCards d.sections.main f
        extra := filterCards d.sections.extra f
        side := filterCards d.sections.side f } }

/- The four checks of the specification, each written as a stand-alone pass
predicate (absence of a criterion is a pass-through); the decomposition
theorem below shows cardMatches is their conjunction. -/

/-- Spec kind check: a card of a recognized kind passes only if that kind's
toggle is on. -/
def kindPass (c : Card) (f : Filters) : Bool :=
  (!(isMonsterCard c) || f.kinds.Monster)
  && (!(isSpellCard c) || f.kinds.Spell)
  && (!(isTrapCard c) || f.kinds.Trap)

/-- Spec level check: the level value, when present, lies in the closed
interval spanned by the set bounds. -/
def levelPass (c : Card) (f : Filters) : Bool :=
  match lvlOf c with
  | none => true
  | some v =>
    (match f.levelMin with
     | some m => decide (m ≤ v)
     | none => true)
    &&
    (match f.levelMax with
     | some m => decide (v ≤ m)
     | none => true)

/-- Spec tag check: when a tag is set the normalized tag list must contain
it. -/
def tagPass (c : Card) (f : Filters) : Bool :=
  f.fnTag == "" || (getFunctionTags c).contains f.fnTag

/-- Spec text check: when text is set the haystack must contain it. -/
def textPass (c : Card) (f : Filters) : Bool :=
  f.text == "" || strIncludes (hayOf c) f.text

/- --------------------------- draw engine -------------------------- -/

/-- expandSection: repeat each card max(1, Number(qty) || 1) times. -/
def expandSection (l : List Card) : List Card :=
  l.flatMap (fun c => List.replicate (max 1 (numQtyOr1 c)).toNat c)

/-- expandByQty: repeat each card Number(qty) || 1 times (a non-positive
count yields no copies, as the counting loop does). -/
def expandByQty (l : List Card) : List Card :=
  l.flatMap (fun c => List.replicate (numQtyOr1 c).toNat c)

/-- Swap the entries at positions i and j (the destructuring swap of the
shuffle loop); out-of-range indices leave the list unchanged. -/
def listSwap {α : Type} (l : List α) (i j : Nat) : List α :=
  match l[i]?, l[j]? with
  | some x, some y => (l.set i y).set j x
  | _, _ => l

/-- The Fisher–Yates loop, index i counting down to 1; rand i % (i + 1)
stands for Math.floor(Math.random() * (i + 1)). -/
def fyLoop (rand : Nat → Nat) : Nat → List Card → List Card
  | 0, a => a
  | i+1, a => fyLoop rand i (listSwap a (i+1) (rand (i+1) % (i+2)))

/-- shuffle: Fisher–Yates over a copy of the array, parameterized by the
randomness oracle. -/
def shuffle (rand : Nat → Nat) (arr : List Card) : List Card :=
  fyLoop rand (arr.length - 1) arr

/-- The hand tester state: the shuffled draw pile and the drawn hand. -/
structure DrawState where
  deck : List Card
  hand : List Card
deriving DecidableEq

/-- makeDrawState: expand the configured sections into a pool, shuffle it,
start with an empty hand. -/
def makeDrawState (rand : Nat → Nat) (d : Deck)
    (includeSide includeExtra : Bool) : DrawState :=
  let main := expandSection d.sections.main
  let side := if includeSide then expandSection d.sections.side else []
  let extra := if includeExtra then expandSection d.sections.extra else []
  { deck := shuffle rand (main ++ side ++ extra), hand := [] }

/-- drawN: pop up to n cards from the end of the pool into the hand, in draw
order; an exhausted pool stops the loop silently. -/
def drawN : DrawState → Nat → DrawState
  | s, 0 => s
  | s, n+1 =>
    match s.deck.getLast? with
    | none => s
    | some c => drawN { deck := s.deck.dropLast, hand := s.hand ++ [c] } n

/-- The module state the draw interactions touch: the canonical deck, the
hand tester state and the drawn-count ledger. -/
structure AppState where
  currentDeck : Option Deck
  draw : DrawState
  drawn : Ledger

/-- drawAndSync: the wired draw — pop a card, push it into the hand, and mark
one copy used in the ledger, n times or until the pool is empty. -/
def drawAndSync : Nat → AppState → AppState
  | 0, g => g
  | n+1, g =>
    match g.draw.deck.getLast? with
    | none => g
    | some c =>
      drawAndSync n
        { g with
          draw := { deck := g.draw.deck.dropLast, hand := g.draw.hand ++ [c] }
          drawn := incDrawn c 1 g.drawn }

/-- The return-to-pool handler: splice the card out of the hand, push it onto
the end of the pool, and unmark one drawn copy. -/
def returnHandCard (s : DrawState) (L : Ledger) (idx : Nat) :
    DrawState × Ledger :=
  match s.hand[idx]? with
  | none => ({ s with hand := s.hand.eraseIdx idx }, L)
  | some c =>
    ({ deck := s.deck ++ [c], hand := s.hand.eraseIdx idx }, unmarkOne c L)

/- ------------------------- deck loading --------------------------- -/

/-- What the deck-root mount shows. -/
inductive Display where
  | blank
  | deckView (d : Deck)
  | errorMsg (msg : String)
deriving DecidableEq

/-- The page state crossfadeLoad touches. -/
structure PageState where
  currentDeck : Option Deck
  displayed : Display
  workingDeck : Option Deck
  hand : List Card
  drawn : Ledger

/-- crossfadeLoad: on a successful fetch install and render the new deck and
reset the working state; on a fetch or parse failure the catch branch only
overwrites the display area with the error message. -/
def crossfadeLoad (res : Except String Deck) (st : PageState) : PageState :=
  match res with
  | .ok deck =>
    { currentDeck := some deck
      displayed := .deckView deck
      workingDeck := none
      hand := []
      drawn := emptyLedger }
  | .error e => { st with displayed := .errorMsg e }

/- ------------------- statement-side abbreviations ------------------ -/

/-- The configured sections feeding the draw pool, before quantity
expansion. -/
def poolSource (d : Deck) (includeSide includeExtra : Bool) : List Card :=
  d.sections.main
    ++ (if includeSide then d.sections.side else [])
    ++ (if includeExtra then d.sections.extra else [])

/-- The stored quantity is a number that is at least one. -/
def qtyAtLeastOne (c : Card) : Bool :=
  match c.qty with
  | .num n => decide (1 ≤ n)
  | _ => false

/- --------------------------- sample data -------------------------- -/

/-- The monster card of the specification scenario. -/
def cardA : Card :=
  { id := some 1, name := "A", qty := .num 3, type := some (.arr ([ "Monster" ])),
    level := none, rank := none, link := none, attr := none, desc := none,
    function := none, functions := none }

/-- The spell card of the specification scenario. -/
def cardB : Card :=
  { id := some 2, name := "B", qty := .num 1, type := some (.arr ([ "Spell" ])),
    level := none, rank := none, link := none, attr := none, desc := none,
    function := none, functions := none }

/-- A card whose stored quantity has been reduced to zero. -/
def cardZero : Card := { cardA with qty := .num 0 }

/-- A level four card. -/
def cardL4 : Card := { cardA with level := some 4 }

/-- A level six card. -/
def cardL6 : Card := { cardA with level := some 6 }

/-- The two-card deck of the specification scenario. -/
def sampleDeck : Deck :=
  { name := "Deck", author := "Me", deckstyle := none,
    sections := { main := [cardA, cardB], extra := [], side := [] } }

/-- Criteria with every toggle on and every other criterion unset. -/
def trivialF : Filters :=
  { text := "", kinds := { Monster := true, Spell := true, Trap := true },
    levelMin := none, levelMax := none, fnTag := "" }

/-- Criteria with the spell toggle off. -/
def noSpellF : Filters :=
  { trivialF with kinds := { Monster := true, Spell := false, Trap := true } }

/-- Criteria with level bounds five to seven. -/
def f57 : Filters := { trivialF with levelMin := some 5, levelMax := some 7 }

/-- A concrete randomness oracle. -/
def sampleRand : Nat → Nat := fun _ => 0

/-- The draw state built from the scenario deck, main section only. -/
def samplePool : DrawState := makeDrawState sampleRand sampleDeck false false

/-- A module state holding the scenario deck and its pool. -/
def sampleApp : AppState :=
  { currentDeck := some sampleDeck, draw := samplePool, drawn := emptyLedger }

/-- A ledger in which one copy of the monster card is drawn. -/
def sampleLedger : Ledger := incDrawn cardA 1 emptyLedger

/-- A load failure message as thrown by loadDeck. -/
def failedLoadMsg : String := "failed to load: vampire.json (404)"

/-- The page state before a failing load: the scenario deck is current and
displayed. -/
def pageBefore : PageState :=
  { currentDeck := some sampleDeck, displayed := .deckView sampleDeck,
    workingDeck := none, hand := [], drawn := emptyLedger }

/- --------------------------- helper lemmas ------------------------ -/

theorem foldl_add_shift (l : List Card) (a : Int) :
    l.foldl (fun n c => n + numQtyOr1 c) a
      = a + l.foldl (fun n c => n + numQtyOr1 c) 0 := by
  induction l generalizing a with
  | nil => simp
  | cons c t ih =>
    simp only [List.foldl_cons]
    rw [ih (a + numQtyOr1 c), ih (0 + numQtyOr1 c)]
    ring

theorem sumQty_cons (c : Card) (l : List Card) :
    sumQty (c :: l) = numQtyOr1 c + sumQty l := by
  unfold sumQty
  simp only [List.foldl_cons]
  rw [foldl_add_shift]
  ring

theorem sumQty_append (l₁ l₂ : List Card) :
    sumQty (l₁ ++ l₂) = sumQty l₁ + sumQty l₂ := by
  induction l₁ with
  | nil => simp [sumQty]
  | cons c t ih => simp only [List.cons_append, sumQty_cons, ih]; ring

theorem cons_set_perm {α : Type} (x : α) :
    ∀ (t : List α) (m : Nat) (y : α), t[m]? = some y →
      List.Perm (y :: t.set m x) (x :: t) := by
  intro t
  induction t with
  | nil => intro m y h; simp at h
  | cons b t' ih =>
    intro m y h
    cases m with
    | zero =>
      rw [List.getElem?_cons_zero] at h
      injection h with hy
      subst hy
      exact List.Perm.swap x b t'
    | succ k =>
      rw [List.getElem?_cons_succ] at h
      exact List.Perm.trans (List.Perm.swap b y (t'.set k x))
        (List.Perm.trans (List.Perm.cons b (ih k y h)) (List.Perm.swap x b t'))

theorem set_set_swap_perm {α : Type} :
    ∀ (l : List α) (i j : Nat) (x y : α), l[i]? = some x → l[j]? = some y →
      List.Perm ((l.set i y).set j x) l := by
  intro l
  induction l with
  | nil => intro i j x y hi _; simp at hi
  | cons a t ih =>
    intro i j x y hi hj
    cases i with
    | zero =>
      rw [List.getElem?_cons_zero] at hi
      injection hi with hx
      subst hx
      cases j with
      | zero =>
        rw [List.getElem?_cons_zero] at hj
        injection hj with hy
        subst hy
        exact List.Perm.refl _
      | succ k =>
        rw [List.getElem?_cons_succ] at hj
        exact cons_set_perm a t k y hj
    | succ k =>
      cases j with
      | zero =>
        rw [List.getElem?_cons_succ] at hi
        rw [List.getElem?_cons_zero] at hj
        injection hj with hy
        subst hy
        exact cons_set_perm a t k x hi
      | succ m =>
        rw [List.getElem?_cons_succ] at hi
        rw [List.getElem?_cons_succ] at hj
        exact List.Perm.cons a (ih k m x y hi hj)

theorem listSwap_perm {α : Type} (l : List α) (i j : Nat) :
    List.Perm (listSwap l i j) l := by
  unfold listSwap
  cases hi : l[i]? with
  | none => cases hj : l[j]? <;> exact List.Perm.refl l
  | some x =>
    cases hj : l[j]? with
    | none => exact List.Perm.refl l
    | some y => exact set_set_swap_perm l i j x y hi hj

theorem fyLoop_perm (rand : Nat → Nat) :
    ∀ (k : Nat) (a : List Card), List.Perm (fyLoop rand k a) a := by
  intro k
  induction k with
  | zero => intro a; exact List.Perm.refl a
  | succ i ih =>
    intro a
    exact List.Perm.trans (ih _) (listSwap_perm a (i+1) (rand (i+1) % (i+2)))

theorem shuffle_perm (rand : Nat → Nat) (arr : List Card) :
    List.Perm (shuffle rand arr) arr :=
  fyLoop_perm rand (arr.length - 1) arr

theorem drawN_hand_length : ∀ (n : Nat) (s : DrawState),
    (drawN s n).hand.length = s.hand.length + min n s.deck.length := by
  intro n
  induction n with
  | zero => intro s; simp [drawN]
  | succ n ih =>
    intro s
    cases h : s.deck.getLast? with
    | none =>
      have hd : s.deck = [] := List.getLast?_eq_none_iff.mp h
      simp [drawN, h, hd]
    | some c =>
      have hne : s.deck ≠ [] := by
        intro hd
        rw [hd] at h
        simp at h
      have hpos : 0 < s.deck.length := List.length_pos.mpr hne
      have h2 := ih { deck := s.deck.dropLast, hand := s.hand ++ [c] }
      simp only [drawN, h]
      rw [h2]
      simp only [List.length_append, List.length_dropLast, List.length_cons,
        List.length_nil]
      omega

theorem drawN_deck_length : ∀ (n : Nat) (s : DrawState),
    (drawN s n).deck.length = s.deck.length - n := by
  intro n
  induction n with
  | zero => intro s; simp [drawN]
  | succ n ih =>
    intro s
    cases h : s.deck.getLast? with
    | none =>
      have hd : s.deck = [] := List.getLast?_eq_none_iff.mp h
      simp [drawN, h, hd]
    | some c =>
      have hne : s.deck ≠ [] := by
        intro hd
        rw [hd] at h
        simp at h
      have hpos : 0 < s.deck.length := List.length_pos.mpr hne
      have h2 := ih { deck := s.deck.dropLast, hand := s.hand ++ [c] }
      simp only [drawN, h]
      rw [h2]
      simp only [List.length_dropLast]
      omega

theorem drawN_conserves : ∀ (n : Nat) (s : DrawState),
    List.Perm ((drawN s n).deck ++ (drawN s n).hand) (s.deck ++ s.hand) := by
  intro n
  induction n with
  | zero => intro s; simp [drawN]
  | succ n ih =>
    intro s
    cases h : s.deck.getLast? with
    | none => simp [drawN, h]
    | some c =>
      have hne : s.deck ≠ [] := by
        intro hd
        rw [hd] at h
        simp at h
      have hlast : s.deck.getLast hne = c := by
        rw [List.getLast?_eq_getLast s.deck hne] at h
        injection h
      have hsplit : s.deck.dropLast ++ [c] = s.deck := by
        rw [← hlast]
        exact List.dropLast_append_getLast hne
      have h2 := ih { deck := s.deck.dropLast, hand := s.hand ++ [c] }
      simp only [drawN, h]
      refine List.Perm.trans h2 ?_
      have hmid : List.Perm (s.hand ++ [c]) ([c] ++ s.hand) :=
        List.perm_append_comm
      refine List.Perm.trans (List.Perm.append_left s.deck.dropLast hmid) ?_
      rw [← List.append_assoc, hsplit]

theorem drawAndSync_currentDeck : ∀ (n : Nat) (g : AppState),
    (drawAndSync n g).currentDeck = g.currentDeck := by
  intro n
  induction n with
  | zero => intro g; rfl
  | succ n ih =>
    intro g
    cases h : g.draw.deck.getLast? with
    | none => simp [drawAndSync, h]
    | some c =>
      simp only [drawAndSync, h]
      rw [ih]

theorem drawAndSync_draw : ∀ (n : Nat) (g : AppState),
    (drawAndSync n g).draw = drawN g.draw n := by
  intro n
  induction n with
  | zero => intro g; rfl
  | succ n ih =>
    intro g
    cases h : g.draw.deck.getLast? with
    | none => simp [drawAndSync, drawN, h]
    | some c =>
      simp only [drawAndSync, drawN, h]
      rw [ih]

theorem decide_le_eq_not_lt (a b : Int) : decide (a ≤ b) = !decide (b < a) := by
  by_cases h : a ≤ b
  · simp [h, not_lt.mpr h]
  · simp [h, not_le.mp h]

theorem levelPass_eq_not_rejected (c : Card) (f : Filters) :
    levelPass c f = !levelRejected c f := by
  unfold levelPass levelRejected
  cases lvlOf c with
  | none => rfl
  | some v =>
    cases f.levelMin with
    | none =>
      cases f.levelMax with
      | none => rfl
      | some M => simp [decide_le_eq_not_lt]
    | some m =>
      cases f.levelMax with
      | none => simp [decide_le_eq_not_lt]
      | some M => simp [decide_le_eq_not_lt]

theorem ite_false_chain (b x : Bool) : (if b = true then false else x) = (!b && x) := by
  cases b <;> simp

theorem cardMatches_eq_conj (c : Card) (f : Filters) :
    cardMatches c f
      = (kindPass c f && levelPass c f && tagPass c f && textPass c f) := by
  unfold cardMatches kindPass tagPass textPass
  rw [levelPass_eq_not_rejected]
  simp only [bne, ite_false_chain]
  simp only [Bool.not_and, Bool.not_not, Bool.and_true, Bool.and_assoc]

theorem cardMatches_trivial (c : Card) (f : Filters)
    (hM : f.kinds.Monster = true) (hS : f.kinds.Spell = true)
    (hT : f.kinds.Trap = true) (hmin : f.levelMin = none)
    (hmax : f.levelMax = none) (htag : f.fnTag = "") (htxt : f.text = "") :
    cardMatches c f = true := by
  unfold cardMatches levelRejected
  cases lvlOf c <;> simp [hM, hS, hT, hmin, hmax, htag, htxt]

theorem project_append (l₁ l₂ : List Card) (L : Ledger) :
    projectCardsForDisplay (l₁ ++ l₂) L
      = projectCardsForDisplay l₁ L ++ projectCardsForDisplay l₂ L := by
  unfold projectCardsForDisplay
  simp [List.filter_append]

theorem project_single (c : Card) (L : Ledger) :
    projectCardsForDisplay [c] L
      = if 0 < remainingQtyFor c L
        then [{ c with qty := JsQty.num (remainingQtyFor c L) }]
        else [] := by
  unfold projectCardsForDisplay qtyGtZero
  by_cases h : 0 < remainingQtyFor c L <;> simp [h]

theorem numQtyOr1_of_atLeastOne (c : Card) (h : qtyAtLeastOne c = true) :
    1 ≤ numQtyOr1 c := by
  unfold qtyAtLeastOne at h
  unfold numQtyOr1
  cases hq : c.qty with
  | absent => rw [hq] at h
  | nonNumeric => rw [hq] at h
  | num n =>
    rw [hq] at h
    simp at h
    have hne : (n == 0) = false := by simp; omega
    simp only [hq, hne]
    simp
    omega

theorem qty_num_of_atLeastOne (c : Card) (h : qtyAtLeastOne c = true) :
    c.qty = JsQty.num (numQtyOr1 c) := by
  unfold qtyAtLeastOne at h
  unfold numQtyOr1
  cases hq : c.qty with
  | absent => rw [hq] at h; simp at h
  | nonNumeric => rw [hq] at h; simp at h
  | num n =>
    rw [hq] at h
    simp at h
    have hne : (n == 0) = false := by simp; omega
    simp only [hq, hne]
    simp

theorem expandSection_eq_expandByQty (l : List Card)
    (h : ∀ c ∈ l, qtyAtLeastOne c = true) : expandSection l = expandByQty l := by
  unfold expandSection expandByQty
  induction l with
  | nil => rfl
  | cons c t ih =>
    have hc := numQtyOr1_of_atLeastOne c (h c (by simp))
    have ht := ih (fun x hx => h x (by simp [hx]))
    simp only [List.flatMap_cons]
    rw [ht, max_eq_right hc]

theorem expandByQty_length_int (l : List Card)
    (h : ∀ c ∈ l, qtyAtLeastOne c = true) :
    ((expandByQty l).length : Int) = sumQty l := by
  induction l with
  | nil => simp [expandByQty, sumQty]
  | cons c t ih =>
    have hc := numQtyOr1_of_atLeastOne c (h c (by simp))
    have ht := ih (fun x hx => h x (by simp [hx]))
    unfold expandByQty at ht ⊢
    simp only [List.flatMap_cons, List.length_append, List.length_replicate]
    rw [sumQty_cons, ← ht]
    have : ((numQtyOr1 c).toNat : Int) = numQtyOr1 c :=
      Int.toNat_of_nonneg (by omega)
    push_cast
    omega

theorem expandByQty_append (l₁ l₂ : List Card) :
    expandByQty (l₁ ++ l₂) = expandByQty l₁ ++ expandByQty l₂ := by
  unfold expandByQty
  simp

theorem expandSection_append (l₁ l₂ : List Card) :
    expandSection (l₁ ++ l₂) = expandSection l₁ ++ expandSection l₂ := by
  unfold expandSection
  simp

/- --------------------------- claim theorems ------------------------ -/

/-- C1: makeFilteredDeck returns a deck whose three sections are exactly the
cards of the corresponding input sections that satisfy all active criteria —
the conjunction of the kind, level, tag and text checks — preserving the
original relative order within each section and adding no cards; the input
deck is a value in this embedding, so it is unchanged by construction. -/
theorem makeFilteredDeck_correct (d : Deck) (f : Filters) :
    List.Sublist (makeFilteredDeck d f).sections.main d.sections.main
  ∧ List.Sublist (makeFilteredDeck d f).sections.extra d.sections.extra
  ∧ List.Sublist (makeFilteredDeck d f).sections.side d.sections.side
  ∧ (∀ c : Card,
      c ∈ (makeFilteredDeck d f).sections.main
        ↔ c ∈ d.sections.main
          ∧ (kindPass c f && levelPass c f && tagPass c f && textPass c f)
              = true)
  ∧ (∀ c : Card,
      c ∈ (makeFilteredDeck d f).sections.extra
        ↔ c ∈ d.sections.extra
          ∧ (kindPass c f && levelPass c f && tagPass c f && textPass c f)
              = true)
  ∧ (∀ c : Card,
      c ∈ (makeFilteredDeck d f).sections.side
        ↔ c ∈ d.sections.side
          ∧ (kindPass c f && levelPass c f && tagPass c f && textPass c f)
              = true) := by
  unfold makeFilteredDeck filterCards
  refine ⟨List.filter_sublist _, List.filter_sublist _, List.filter_sublist _,
    ?_, ?_, ?_⟩ <;>
    · intro c
      simp [List.mem_filter, cardMatches_eq_conj]

/-- C2: filtering with all three kind toggles on, both level bounds unset and
empty text and tag criteria returns a deck structurally equal to the input:
the same cards in the same order in each of the three sections. -/
theorem makeFilteredDeck_trivial_id (d : Deck) (f : Filters)
    (hM : f.kinds.Monster = true) (hS : f.kinds.Spell = true)
    (hT : f.kinds.Trap = true) (hmin : f.levelMin = none)
    (hmax : f.levelMax = none) (htag : f.fnTag = "") (htxt : f.text = "") :
    makeFilteredDeck d f = d := by
  have hall : ∀ c : Card, cardMatches c f = true := fun c =>
    cardMatches_trivial c f hM hS hT hmin hmax htag htxt
  cases d with
  | mk nm au ds secs =>
    cases secs with
    | mk m e s =>
      unfold makeFilteredDeck filterCards
      simp [List.filter_eq_self, hall]

/-- C2 witness: the trivial criteria leave the scenario deck unchanged. -/
theorem makeFilteredDeck_trivial_id_witness :
    makeFilteredDeck sampleDeck trivialF = sampleDeck :=
  makeFilteredDeck_trivial_id sampleDeck trivialF rfl rfl rfl rfl rfl rfl rfl

/-- C3: drawing n cards moves min(n, pool size) cards from the pool into the
hand, conserving the multiset of cards; for n at most the pool size T exactly
n cards move and the pool keeps T - n, and for n greater than T all T cards
move and the pool is left empty; drawN is total, so neither case is an
error. -/
theorem drawN_clamp_correct (s : DrawState) (n : Nat) :
    (drawN s n).hand.length = s.hand.length + min n s.deck.length
  ∧ (drawN s n).deck.length = s.deck.length - n
  ∧ List.Perm ((drawN s n).deck ++ (drawN s n).hand) (s.deck ++ s.hand)
  ∧ (n ≤ s.deck.length →
      (drawN s n).hand.length = s.hand.length + n
      ∧ (drawN s n).deck.length = s.deck.length - n)
  ∧ (s.deck.length < n →
      (drawN s n).hand.length = s.hand.length + s.deck.length
      ∧ (drawN s n).deck = []) := by
  have h1 := drawN_hand_length n s
  have h2 := drawN_deck_length n s
  refine ⟨h1, h2, drawN_conserves n s, ?_, ?_⟩
  · intro h
    exact ⟨by omega, h2⟩
  · intro h
    refine ⟨by omega, ?_⟩
    have hz : (drawN s n).deck.length = 0 := by omega
    exact List.length_eq_zero.mp hz

/-- C3 witness: the scenario pool has four cards, and drawing five yields a
hand of four and an empty pool. -/
theorem drawN_clamp_correct_witness :
    samplePool.deck.length < 5
  ∧ (drawN samplePool 5).hand.length
      = samplePool.hand.length + samplePool.deck.length
  ∧ (drawN samplePool 5).deck = [] :=
  ⟨by decide,
    ((drawN_clamp_correct samplePool 5).2.2.2.2 (by decide)).1,
    ((drawN_clamp_correct samplePool 5).2.2.2.2 (by decide)).2⟩

/-- C4: for a deck whose configured cards all store a numeric quantity of at
least one, makeDrawState starts with an empty hand and a pool that is a
permutation of the quantity expansion of the configured sections — each card
repeated exactly its stored quantity many times — so the pool size equals the
sum of the configured sections' quantities. -/
theorem makeDrawState_pool_correct (rand : Nat → Nat) (d : Deck)
    (includeSide includeExtra : Bool)
    (h : ∀ c ∈ poolSource d includeSide includeExtra, qtyAtLeastOne c = true) :
    (makeDrawState rand d includeSide includeExtra).hand = []
  ∧ List.Perm (makeDrawState rand d includeSide includeExtra).deck
      (expandByQty (poolSource d includeSide includeExtra))
  ∧ (∀ c ∈ poolSource d includeSide includeExtra,
      c.qty = JsQty.num (numQtyOr1 c))
  ∧ ((makeDrawState rand d includeSide includeExtra).deck.length : Int)
      = sumQty (poolSource d includeSide includeExtra) := by
  have hmain : ∀ c ∈ d.sections.main, qtyAtLeastOne c = true := by
    intro c hc
    exact h c (by unfold poolSource; simp [hc])
  have hside : includeSide = true →
      ∀ c ∈ d.sections.side, qtyAtLeastOne c = true := by
    intro hs c hc
    exact h c (by unfold poolSource; simp [hs, hc])
  have hextra : includeExtra = true →
      ∀ c ∈ d.sections.extra, qtyAtLeastOne c = true := by
    intro he c hc
    exact h c (by unfold poolSource; simp [he, hc])
  have h2 : (if includeSide then expandSection d.sections.side else [])
      = expandByQty (if includeSide then d.sections.side else []) := by
    cases includeSide with
    | false => simp [expandByQty]
    | true => simp [expandSection_eq_expandByQty d.sections.side (hside rfl)]
  have h3 : (if includeExtra then expandSection d.sections.extra else [])
      = expandByQty (if includeExtra then d.sections.extra else []) := by
    cases includeExtra with
    | false => simp [expandByQty]
    | true => simp [expandSection_eq_expandByQty d.sections.extra (hextra rfl)]
  have hexp : expandSection d.sections.main
      ++ (if includeSide then expandSection d.sections.side else [])
      ++ (if includeExtra then expandSection d.sections.extra else [])
      = expandByQty (poolSource d includeSide includeExtra) := by
    unfold poolSource
    rw [expandByQty_append, expandByQty_append]
    rw [expandSection_eq_expandByQty d.sections.main hmain, h2, h3]
  have hdeck : (makeDrawState rand d includeSide includeExtra).deck
      = shuffle rand (expandByQty (poolSource d includeSide includeExtra)) := by
    rw [← hexp]
    rfl
  have hperm : List.Perm (makeDrawState rand d includeSide includeExtra).deck
      (expandByQty (poolSource d includeSide includeExtra)) := by
    rw [hdeck]
    exact shuffle_perm rand _
  refine ⟨rfl, hperm, ?_, ?_⟩
  · intro c hc
    exact qty_num_of_atLeastOne c (h c hc)
  · rw [hperm.length_eq]
    exact expandByQty_length_int _ h

/-- C4 witness: the scenario deck's pool is a permutation of its quantity
expansion, starting from an empty hand. -/
theorem makeDrawState_pool_correct_witness :
    (∀ c ∈ poolSource sampleDeck false false, qtyAtLeastOne c = true)
  ∧ (makeDrawState sampleRand sampleDeck false false).hand = []
  ∧ List.Perm (makeDrawState sampleRand sampleDeck false false).deck
      (expandByQty (poolSource sampleDeck false false)) :=
  ⟨by decide,
    (makeDrawState_pool_correct sampleRand sampleDeck false false (by decide)).1,
    (makeDrawState_pool_correct sampleRand sampleDeck false false
      (by decide)).2.1⟩

/-- C5: for a card with stored quantity q at least one and a clean ledger
entry, drawing it once makes its projected remaining quantity q - 1, and then
returning it restores q; the return handler appends the card to the end of
the pool and decrements the counter floored at zero; the projection shows a
card at its place in the section with its positive remaining quantity and
omits it entirely once the remaining quantity is zero. -/
theorem ledger_projection_correct (c : Card) (L : Ledger)
    (h0 : L (cardKey c) = 0) (hq : 1 ≤ numQtyOr1 c) :
    remainingQtyFor c (incDrawn c 1 L) = numQtyOr1 c - 1
  ∧ remainingQtyFor c (unmarkOne c (incDrawn c 1 L)) = numQtyOr1 c
  ∧ (∀ (s : DrawState) (idx : Nat), s.hand[idx]? = some c →
      (returnHandCard s L idx).1.deck = s.deck ++ [c]
      ∧ (returnHandCard s L idx).2 = unmarkOne c L)
  ∧ (∀ (L2 : Ledger) (l₁ l₂ : List Card), 0 < remainingQtyFor c L2 →
      projectCardsForDisplay (l₁ ++ c :: l₂) L2
        = projectCardsForDisplay l₁ L2
          ++ { c with qty := JsQty.num (remainingQtyFor c L2) }
            :: projectCardsForDisplay l₂ L2)
  ∧ (∀ (L2 : Ledger) (l₁ l₂ : List Card), remainingQtyFor c L2 = 0 →
      projectCardsForDisplay (l₁ ++ c :: l₂) L2
        = projectCardsForDisplay l₁ L2 ++ projectCardsForDisplay l₂ L2) := by
  have hinc : incDrawn c 1 L (cardKey c) = 1 := by
    unfold incDrawn
    simp [h0]
  refine ⟨?_, ?_, ?_, ?_, ?_⟩
  · unfold remainingQtyFor
    rw [hinc]
    omega
  · have hun : unmarkOne c (incDrawn c 1 L) (cardKey c) = 0 := by
      unfold unmarkOne
      rw [if_pos rfl, hinc]
      decide
    unfold remainingQtyFor
    rw [hun]
    omega
  · intro s idx hidx
    simp [returnHandCard, hidx]
  · intro L2 l₁ l₂ hpos
    have hsplit : l₁ ++ c :: l₂ = l₁ ++ [c] ++ l₂ := by simp
    rw [hsplit, project_append, project_append, project_single, if_pos hpos]
    simp
  · intro L2 l₁ l₂ hzero
    have hsplit : l₁ ++ c :: l₂ = l₁ ++ [c] ++ l₂ := by simp
    rw [hsplit, project_append, project_append, project_single,
      if_neg (by omega)]
    simp

/-- C5 witness: with quantity three, drawing the monster card once projects
two remaining and returning it projects three again. -/
theorem ledger_projection_correct_witness :
    remainingQtyFor cardA (incDrawn cardA 1 emptyLedger) = numQtyOr1 cardA - 1
  ∧ remainingQtyFor cardA (unmarkOne cardA (incDrawn cardA 1 emptyLedger))
      = numQtyOr1 cardA :=
  ⟨(ledger_projection_correct cardA emptyLedger rfl (by decide)).1,
    (ledger_projection_correct cardA emptyLedger rfl (by decide)).2.1⟩

/-- C6: a card whose lowercased type tokens contain the substring of a kind
whose toggle is off is rejected by cardMatches; a card matching none of the
three kind substrings is never rejected by the kind toggles — its cardMatches
outcome is the same under every kind-toggle assignment. -/
theorem kind_toggle_correct (c : Card) (f : Filters) :
    (isMonsterCard c = true → f.kinds.Monster = false → cardMatches c f = false)
  ∧ (isSpellCard c = true → f.kinds.Spell = false → cardMatches c f = false)
  ∧ (isTrapCard c = true → f.kinds.Trap = false → cardMatches c f = false)
  ∧ (isMonsterCard c = false → isSpellCard c = false → isTrapCard c = false →
      ∀ k₁ k₂ : Kinds,
        cardMatches c { f with kinds := k₁ }
          = cardMatches c { f with kinds := k₂ }) := by
  refine ⟨?_, ?_, ?_, ?_⟩
  · intro h1 h2
    unfold cardMatches
    simp [h1, h2]
  · intro h1 h2
    unfold cardMatches
    simp [h1, h2]
  · intro h1 h2
    unfold cardMatches
    simp [h1, h2]
  · intro h1 h2 h3 k₁ k₂
    unfold cardMatches
    simp [h1, h2, h3, levelRejected]

/-- C6 witness: the spell card is rejected when the spell toggle is off, and
a card with no recognized kind token is unaffected by turning every toggle
off. -/
theorem kind_toggle_correct_witness :
    cardMatches cardB noSpellF = false
  ∧ cardMatches { cardA with type := some (.arr ([ "Token" ])) }
        { trivialF with
            kinds := { Monster := false, Spell := false, Trap := false } }
      = cardMatches { cardA with type := some (.arr ([ "Token" ])) }
        { trivialF with kinds := { Monster := true, Spell := true, Trap := true } } :=
  ⟨(kind_toggle_correct cardB noSpellF).2.1 (by decide) rfl,
    (kind_toggle_correct { cardA with type := some (.arr ([ "Token" ])) }
        trivialF).2.2.2 (by decide) (by decide) (by decide)
      { Monster := false, Spell := false, Trap := false }
      { Monster := true, Spell := true, Trap := true }⟩

/-- C7: cardMatches takes the first non-null of level, rank, link as the
card's single level value; with bounds set, a value below the minimum or
above the maximum forces rejection, while a value inside the closed interval
makes the outcome identical to filtering with both bounds unset. -/
theorem level_bound_correct (c : Card) (f : Filters) (v : Int)
    (hv : lvlOf c = some v) :
    (∀ m : Int, f.levelMin = some m → v < m → cardMatches c f = false)
  ∧ (∀ M : Int, f.levelMax = some M → M < v → cardMatches c f = false)
  ∧ ((∀ m : Int, f.levelMin = some m → m ≤ v)
      → (∀ M : Int, f.levelMax = some M → v ≤ M)
      → cardMatches c f
          = cardMatches c { f with levelMin := none, levelMax := none }) := by
  refine ⟨?_, ?_, ?_⟩
  · intro m hm hlt
    have hrej : levelRejected c f = true := by
      unfold levelRejected
      rw [hv, hm]
      simp [hlt]
    unfold cardMatches
    simp [hrej]
  · intro M hM hlt
    have hrej : levelRejected c f = true := by
      unfold levelRejected
      rw [hv, hM]
      simp [hlt]
    unfold cardMatches
    simp [hrej]
  · intro hmin hmax
    have hrej : levelRejected c f = false := by
      unfold levelRejected
      rw [hv]
      cases hm : f.levelMin with
      | none =>
        cases hM : f.levelMax with
        | none => rfl
        | some M => simp [not_lt.mpr (hmax M hM)]
      | some m =>
        cases hM : f.levelMax with
        | none => simp [not_lt.mpr (hmin m hm)]
        | some M => simp [not_lt.mpr (hmin m hm), not_lt.mpr (hmax M hM)]
    have hrej2 :
        levelRejected c { f with levelMin := none, levelMax := none }
          = false := by
      unfold levelRejected
      rw [hv]
      rfl
    unfold cardMatches
    simp only [hrej, hrej2]

/-- C7 witness: with bounds five to seven, a level four card is rejected and
a level six card is filtered exactly as without bounds. -/
theorem level_bound_correct_witness :
    cardMatches cardL4 f57 = false
  ∧ cardMatches cardL6 f57
      = cardMatches cardL6 { f57 with levelMin := none, levelMax := none } :=
  ⟨(level_bound_correct cardL4 f57 4 rfl).1 5 rfl (by decide),
    (level_bound_correct cardL6 f57 6 rfl).2.2
      (by intro m hm; injection hm with h; omega)
      (by intro M hM; injection hM with h; omega)⟩

/-- C8: the wired draw operation leaves the canonical deck untouched — it
only pops the pool into the hand, exactly as drawN does, and marks the
ledger — and the display projection builds fresh records, each equal to a
card of the input section with only its qty field replaced by the remaining
quantity, so no stored quantity or section list is written. -/
theorem draw_and_project_frame (g : AppState) (n : Nat) :
    (drawAndSync n g).currentDeck = g.currentDeck
  ∧ (drawAndSync n g).draw = drawN g.draw n
  ∧ (∀ (L : Ledger) (l : List Card) (p : Card),
      p ∈ projectCardsForDisplay l L →
        ∃ c ∈ l, p = { c with qty := JsQty.num (remainingQtyFor c L) }) := by
  refine ⟨drawAndSync_currentDeck n g, drawAndSync_draw n g, ?_⟩
  intro L l p hp
  unfold projectCardsForDisplay at hp
  rw [List.mem_filter] at hp
  obtain ⟨hm, _⟩ := hp
  rw [List.mem_map] at hm
  obtain ⟨c, hc, hpc⟩ := hm
  exact ⟨c, hc, hpc.symm⟩

/-- C8 witness: drawing twice preserves the canonical deck, and a concrete
projected record arises from a section card with only its qty replaced. -/
theorem draw_and_project_frame_witness :
    (drawAndSync 2 sampleApp).currentDeck = sampleApp.currentDeck
  ∧ ∃ c ∈ [cardA],
      { cardA with qty := JsQty.num 2 }
        = { c with qty := JsQty.num (remainingQtyFor c sampleLedger) } :=
  ⟨(draw_and_project_frame sampleApp 2).1,
    (draw_and_project_frame sampleApp 2).2.2 sampleLedger [cardA]
      { cardA with qty := JsQty.num 2 } (by decide)⟩

/-- C9 counterexample: after a failed load the previously active deck is no
longer displayed — the display area holds the error message instead — even
though CURRENT_DECK still references the previous deck, so the claim that
the previously active deck remains displayed is false on this input. -/
theorem crossfade_failure_counterexample :
    (crossfadeLoad (Except.error failedLoadMsg) pageBefore).currentDeck
        = some sampleDeck
  ∧ ¬ ((crossfadeLoad (Except.error failedLoadMsg) pageBefore).displayed
        = Display.deckView sampleDeck) :=
  ⟨rfl, by decide⟩

/-- C9 amended: when a deck load fails the error is surfaced as the displayed
message, and no partially-applied state remains — CURRENT_DECK, the working
deck, the hand and the drawn ledger are all left untouched — but the display
area shows the failure message rather than the previous deck. -/
theorem crossfade_failure_state_safe (e : String) (st : PageState) :
    (crossfadeLoad (Except.error e) st).currentDeck = st.currentDeck
  ∧ (crossfadeLoad (Except.error e) st).displayed = Display.errorMsg e
  ∧ (crossfadeLoad (Except.error e) st).workingDeck = st.workingDeck
  ∧ (crossfadeLoad (Except.error e) st).hand = st.hand
  ∧ (crossfadeLoad (Except.error e) st).drawn = st.drawn :=
  ⟨rfl, rfl, rfl, rfl, rfl⟩

/-- C10: a card whose qty is absent, zero, or non-numeric counts as one —
sumQty adds one for it, and each quantity expansion places exactly one copy
of it at its position — so in particular a card whose quantity has been
reduced to zero still contributes one copy when the pool is rebuilt. -/
theorem qty_defaults_to_one (c : Card)
    (h : c.qty = JsQty.absent ∨ c.qty = JsQty.num 0
        ∨ c.qty = JsQty.nonNumeric) :
    numQtyOr1 c = 1
  ∧ (∀ l₁ l₂ : List Card, sumQty (l₁ ++ c :: l₂) = sumQty (l₁ ++ l₂) + 1)
  ∧ (∀ l₁ l₂ : List Card,
      expandSection (l₁ ++ c :: l₂)
        = expandSection l₁ ++ c :: expandSection l₂)
  ∧ (∀ l₁ l₂ : List Card,
      expandByQty (l₁ ++ c :: l₂) = expandByQty l₁ ++ c :: expandByQty l₂) := by
  have h1 : numQtyOr1 c = 1 := by
    unfold numQtyOr1
    rcases h with h | h | h <;> (rw [h]; try rfl)
  have hsec : expandSection (c :: ([] : List Card)) = [c] := by
    unfold expandSection
    simp only [List.flatMap_cons, h1]
    rfl
  have hqty : expandByQty (c :: ([] : List Card)) = [c] := by
    unfold expandByQty
    simp only [List.flatMap_cons, h1]
    rfl
  refine ⟨h1, ?_, ?_, ?_⟩
  · intro l₁ l₂
    rw [sumQty_append, sumQty_append, sumQty_cons, h1]
    ring
  · intro l₁ l₂
    have hmid : l₁ ++ c :: l₂ = l₁ ++ (c :: ([] : List Card)) ++ l₂ := by simp
    rw [hmid, expandSection_append, expandSection_append, hsec]
    simp
  · intro l₁ l₂
    have hmid : l₁ ++ c :: l₂ = l₁ ++ (c :: ([] : List Card)) ++ l₂ := by simp
    rw [hmid, expandByQty_append, expandByQty_append, hqty]
    simp

/-- C10 witness: a card with quantity reduced to zero still counts one and
contributes exactly one copy to the rebuilt pool. -/
theorem qty_defaults_to_one_witness :
    numQtyOr1 cardZero = 1
  ∧ expandByQty ([cardB] ++ cardZero :: [])
      = expandByQty [cardB] ++ cardZero :: expandByQty [] :=
  ⟨(qty_defaults_to_one cardZero (by decide)).1,
    (qty_defaults_to_one cardZero (by decide)).2.2.2 [cardB] []⟩
